import Mathlib

set_option maxRecDepth 10000

/-!
A shallow embedding of `src/main.py` (class `WebParser`): a generic web-page
data extractor.  HTML documents are modelled as element trees, CSS selectors
as an inductive covering the selector forms the source uses, the HTTP session
as a fetch oracle `String → Option Doc` (`none` = non-2xx status or transport
error, i.e. `raise_for_status` / `requests` raising), and the file writers as
event-trace producers with a boolean oracle for filesystem success.
-/

/-- An HTML node: a text node or an element with a tag, attributes
(as the raw attribute string pairs) and children.  This is the model of the
BeautifulSoup element tree (an external collaborator of the core). -/
inductive Node where
  | text (s : String) : Node
  | elem (tag : String) (attrs : List (String × String)) (children : List Node) : Node

/-- A parsed document (`soup`): the list of top-level nodes. -/
abbrev Doc := List Node

/-- Python `str.strip()`: drop whitespace from both ends.  Python strings
are code-point sequences, so string primitives here work on `List Char`. -/
def pyStrip (s : String) : String :=
  String.mk (((s.toList.dropWhile Char.isWhitespace).reverse.dropWhile Char.isWhitespace).reverse)

/-- Python `len(s)`: the number of code points. -/
def pyLen (s : String) : Nat :=
  s.toList.length

/-- Python `s[:n]`: the first `n` code points. -/
def pyTake (s : String) (n : Nat) : String :=
  String.mk (s.toList.take n)

/-- Python `c in s` for a single character. -/
def pyHasChar (s : String) (c : Char) : Bool :=
  s.toList.contains c

/-- Whether `p` is a prefix of `s`. -/
def pyStartsWith (s p : String) : Bool :=
  p.toList.isPrefixOf s.toList

/-- Split on whitespace (the class-attribute word split of the CSS class
selector). -/
def splitWsAux : List Char → List Char → List String
  | [], acc => [String.mk acc.reverse]
  | c :: cs, acc =>
      if c.isWhitespace then String.mk acc.reverse :: splitWsAux cs []
      else splitWsAux cs (c :: acc)

/-- The whitespace-separated words of a string. -/
def pySplitWs (s : String) : List String :=
  splitWsAux s.toList []

/-- Whether the list `sub` occurs as a contiguous sublist of `l`
(Python's `in` on strings, CSS `[attr*=value]` substring matching). -/
def charsContain (l sub : List Char) : Bool :=
  (List.range (l.length + 1)).any (fun i => sub.isPrefixOf (l.drop i))

/-- Whether `sub` is a substring of `s`. -/
def strContains (s sub : String) : Bool :=
  charsContain s.toList sub.toList

mutual

/-- All descendants of a node, in document (preorder) order, excluding the
node itself — the search space of BeautifulSoup's `find` / `find_all` /
`select` / `select_one` scoped to an element. -/
def descN : Node → List Node
  | .text _ => []
  | .elem _ _ cs => descL cs

/-- All nodes of a node list together with their descendants, in document
(preorder) order. -/
def descL : List Node → List Node
  | [] => []
  | n :: ns => n :: descN n ++ descL ns

end

mutual

/-- `get_text(strip=True)` of a node: every descendant text string stripped
and concatenated (BeautifulSoup strips each string and joins with `""`). -/
def textN : Node → String
  | .text s => pyStrip s
  | .elem _ _ cs => textL cs

/-- `get_text(strip=True)` over a node list. -/
def textL : List Node → String
  | [] => ""
  | n :: ns => textN n ++ textL ns

end

/-- `element.get(a)`: attribute lookup; `none` for a text node or an absent
attribute. -/
def getAttr (n : Node) (a : String) : Option String :=
  match n with
  | .text _ => none
  | .elem _ attrs _ => attrs.lookup a

/-- The tag of a node (`none` for a text node). -/
def tagOf : Node → Option String
  | .text _ => none
  | .elem t _ _ => some t

/-- The CSS selector forms used by the source: a plain tag selector
(`div`, `article`, `li`, ...), a class selector (`.item`, ...), and a
tag-with-attribute-substring selector (`div[class*="item"]`).  Rule sets
carry selectors in this already-parsed form (selector parsing belongs to
the soupsieve collaborator, not to the core). -/
inductive Selector where
  | tag (t : String)
  | cls (c : String)
  | tagAttrContains (t a v : String)
deriving DecidableEq, Repr

/-- Whether a node matches a selector (text nodes never match). -/
def matchesSel (sel : Selector) (n : Node) : Bool :=
  match sel, n with
  | _, .text _ => false
  | .tag t, .elem tg _ _ => tg == t
  | .cls c, .elem _ attrs _ =>
      match attrs.lookup "class" with
      | some v => (pySplitWs v).contains c
      | none => false
  | .tagAttrContains t a v, .elem tg attrs _ =>
      tg == t &&
      match attrs.lookup a with
      | some w => strContains w v
      | none => false

/-- `soup.select(sel)`: all matching elements of the document, in document
order. -/
def docSelect (doc : Doc) (sel : Selector) : List Node :=
  (descL doc).filter (matchesSel sel)

/-- `item.select_one(sel)`: the first matching descendant of `item`. -/
def selectOne (item : Node) (sel : Selector) : Option Node :=
  ((descN item).filter (matchesSel sel)).head?

/-- `item.find([t₁, …])`: the first descendant whose tag is in the list. -/
def findFirstTag (item : Node) (tags : List String) : Option Node :=
  ((descN item).filter (fun n =>
    match tagOf n with
    | some t => tags.contains t
    | none => false)).head?

/-- `item.find_all(t)`: every descendant with tag `t`, in document order. -/
def findAllTag (item : Node) (t : String) : List Node :=
  (descN item).filter (fun n => tagOf n == some t)

/-- `soup.find_all(t)` at document level. -/
def docFindAll (doc : Doc) (t : String) : List Node :=
  (descL doc).filter (fun n => tagOf n == some t)

/-- A record value: a string, or a list of strings (the heuristic `links`
and `images` fields). -/
inductive Value where
  | str (s : String)
  | list (ss : List String)
deriving DecidableEq, Repr

/-- A record: the Python dict `item_data`, as an association list in
insertion order. -/
abbrev Record := List (String × Value)

/-- Python dict assignment `d[k] = v`: update in place if `k` is present
(keeping its position), else append. -/
def recSet (r : Record) (k : String) (v : Value) : Record :=
  if r.any (fun p => p.1 == k) then
    r.map (fun p => if p.1 == k then (k, v) else p)
  else r ++ [(k, v)]

/-- Modelled from the spec: relative-URL resolution against a base URL
(`urllib.parse.urljoin`, an external collaborator), standard base+relative
join semantics for the common reference forms: an absolute reference is
returned unchanged, a root-relative reference (`/a/b`) replaces the base's
path, and any other reference replaces the base's last path segment. -/
def urljoin (base href : String) : String :=
  if strContains href "://" then href
  else
    let cs := base.toList
    let schemeLen :=
      match (List.range (cs.length + 1)).find? (fun i => "://".toList.isPrefixOf (cs.drop i)) with
      | some i => i + 3
      | none => 0
    let hostEnd := schemeLen + ((cs.drop schemeLen).takeWhile (fun c => c ≠ '/')).length
    if pyStartsWith href "/" then
      String.mk (cs.take hostEnd) ++ href
    else
      let path := cs.drop hostEnd
      if path.contains '/' then
        String.mk (cs.take hostEnd ++ (path.reverse.dropWhile (fun c => c ≠ '/')).reverse) ++ href
      else
        String.mk cs ++ "/" ++ href

/-- The fixed candidate selector list of `WebParser._auto_detect_items`,
in declared order. -/
def autoSelectors : List Selector :=
  [ .tagAttrContains "div" "class" "item",
    .tagAttrContains "div" "class" "product",
    .tagAttrContains "div" "class" "card",
    .tagAttrContains "div" "class" "post",
    .tag "article",
    .tag "li",
    .cls "item",
    .cls "product",
    .cls "card",
    .cls "post" ]

/-- The candidate loop of `_auto_detect_items`: return the match set of the
first selector matching more than one element, else `none`. -/
def autoDetectLoop (doc : Doc) : List Selector → Option (List Node)
  | [] => none
  | s :: ss =>
      let items := docSelect doc s
      if items.length > 1 then some items else autoDetectLoop doc ss

/-- `WebParser._auto_detect_items`: try the candidate list; on total failure
fall back to `soup.find_all('div')[:10]`. -/
def autoDetectItems (doc : Doc) : List Node :=
  match autoDetectLoop doc autoSelectors with
  | some items => items
  | none => (docFindAll doc "div").take 10

/-- A rule set (`selectors`): field name to selector, in insertion order. -/
abbrev Rules := List (String × Selector)

/-- One iteration of the rule-extraction loop of `parse_website`
(lines 70–77): for `key ≠ 'items'`, select the first matching descendant;
if found store its stripped text, and additionally the resolved `href` under
`key_link` when the element's `href` attribute is present and non-empty
(Python's `if element.get('href'):` truthiness). -/
def extractRuleStep (url : String) (item : Node) (acc : Record) :
    String × Selector → Record
  | (key, sel) =>
    if key == "items" then acc
    else
      match selectOne item sel with
      | none => acc
      | some el =>
        let acc1 := recSet acc key (.str (textN el))
        match getAttr el "href" with
        | none => acc1
        | some h => if h == "" then acc1 else recSet acc1 (key ++ "_link") (.str (urljoin url h))

/-- The rule-driven extraction of one item (`parse_website` lines 68–77). -/
def extractRule (url : String) (rules : Rules) (item : Node) : Record :=
  rules.foldl (extractRuleStep url item) []

/-- `WebParser._extract_auto_data`: heuristic extraction of one item —
first heading's text as `title`, the non-empty `href`s of all anchors as
`links` (set whenever at least one anchor exists), the non-empty `src`s of
all images as `images` (set whenever at least one image exists), and the
item's stripped text as `text` when longer than 10 characters, truncated to
200 characters plus `'...'` when longer than 200. -/
def extractAutoData (item : Node) : Record :=
  let d0 : Record := []
  let d1 :=
    match findFirstTag item ["h1", "h2", "h3", "h4", "h5", "h6"] with
    | some title => recSet d0 "title" (.str (textN title))
    | none => d0
  let anchors := findAllTag item "a"
  let d2 :=
    if anchors.isEmpty then d1
    else recSet d1 "links" (.list (anchors.filterMap (fun a =>
      match getAttr a "href" with
      | some h => if h == "" then none else some h
      | none => none)))
  let images := findAllTag item "img"
  let d3 :=
    if images.isEmpty then d2
    else recSet d2 "images" (.list (images.filterMap (fun im =>
      match getAttr im "src" with
      | some s => if s == "" then none else some s
      | none => none)))
  let txt := textN item
  if txt ≠ "" ∧ pyLen txt > 10 then
    recSet d3 "text" (.str (if pyLen txt > 200 then pyTake txt 200 ++ "..." else txt))
  else d3

/-- Python truthiness of the `selectors` argument (`if not selectors:` /
`if selectors:`): `None` and the empty dict are both falsy. -/
def rulesTruthy : Option Rules → Bool
  | none => false
  | some rs => !rs.isEmpty

/-- Item location of `parse_website` (lines 59–63): heuristic detection when
`selectors` is falsy, else `soup.select(selectors.get('items', 'div'))`. -/
def locateItems (selectors : Option Rules) (doc : Doc) : List Node :=
  match selectors with
  | none => autoDetectItems doc
  | some rs =>
      if rs.isEmpty then autoDetectItems doc
      else docSelect doc ((rs.lookup "items").getD (.tag "div"))

/-- Per-item extraction dispatch of `parse_website` (lines 65–80). -/
def extractItem (url : String) (selectors : Option Rules) (item : Node) : Record :=
  match selectors with
  | none => extractAutoData item
  | some rs => if rs.isEmpty then extractAutoData item else extractRule url rs item

/-- The records contributed by one fetched page (`parse_website`
lines 59–83): locate items, extract each, keep non-empty records
(`if item_data:`) in document order. -/
def pageRecords (url : String) (selectors : Option Rules) (doc : Doc) : List Record :=
  (locateItems selectors doc).filterMap (fun item =>
    let r := extractItem url selectors item
    if r.isEmpty then none else some r)

/-- The page URL computation of `parse_website` (lines 43–50): page 1 is the
base URL unmodified, later pages append `page=<n>` with `&` if the base
already contains `?`, else with `?`. -/
def pageUrl (url : String) (page : Nat) : String :=
  if page == 1 then url
  else if pyHasChar url '?' then url ++ "&page=" ++ toString page
  else url ++ "?page=" ++ toString page

/-- The outcome of a parse run: the accumulated data and the URLs fetched,
in order. -/
structure ParseOut where
  data : List Record
  fetched : List String
deriving DecidableEq, Repr

/-- The pagination loop of `parse_website`, over the remaining page numbers.
`fetch` is the HTTP session: `none` models `response.raise_for_status()`
raising (non-2xx status) or a transport error, which the surrounding
`try/except` turns into an immediate return of the data accumulated so far.
The inter-page `time.sleep(delay)` has no observable effect here. -/
def parseLoop (fetch : String → Option Doc) (url : String)
    (selectors : Option Rules) (acc : List Record) : List Nat → ParseOut
  | [] => ⟨acc, []⟩
  | p :: ps =>
    let cu := pageUrl url p
    match fetch cu with
    | none => ⟨acc, [cu]⟩
    | some doc =>
      let rest := parseLoop fetch url selectors (acc ++ pageRecords url selectors doc) ps
      ⟨rest.data, cu :: rest.fetched⟩

/-- `WebParser.parse_website(url, selectors, max_pages, delay)`: run the
pagination loop over pages `1..max_pages` starting from an empty result set.
The `delay` argument only feeds `time.sleep` and is otherwise unused. -/
def parse_website (fetch : String → Option Doc) (url : String)
    (selectors : Option Rules) (max_pages : Nat) (_delay : Nat) : ParseOut :=
  parseLoop fetch url selectors [] (List.range' 1 max_pages)

/-- An observable event of the file writers: the console messages of
`save_to_excel` / `save_to_csv` / `save_to_json` / `auto_save_all`. -/
inductive SaveEvent where
  | excelUnavailable : SaveEvent
  | noData : SaveEvent
  | saved (filename : String) : SaveEvent
  | saveError (filename : String) : SaveEvent
deriving DecidableEq, Repr

/-- `WebParser.save_to_excel`: refuse when `openpyxl` is missing
(`EXCEL_AVAILABLE` false), report nothing to save on empty data, otherwise
attempt the write; `writeOk` is the filesystem oracle for the `try/except`
around `df.to_excel` — a failure is logged, never re-raised. -/
def save_to_excel (excelAvailable writeOk : Bool) (data : List Record)
    (filename : String) : List SaveEvent :=
  if !excelAvailable then [.excelUnavailable]
  else if data.isEmpty then [.noData]
  else if writeOk then [.saved filename] else [.saveError filename]

/-- `WebParser.save_to_csv`: report nothing to save on empty data, otherwise
attempt the write; failures are caught and logged. -/
def save_to_csv (writeOk : Bool) (data : List Record)
    (filename : String) : List SaveEvent :=
  if data.isEmpty then [.noData]
  else if writeOk then [.saved filename] else [.saveError filename]

/-- `WebParser.save_to_json`: report nothing to save on empty data, otherwise
attempt the write; failures are caught and logged. -/
def save_to_json (writeOk : Bool) (data : List Record)
    (filename : String) : List SaveEvent :=
  if data.isEmpty then [.noData]
  else if writeOk then [.saved filename] else [.saveError filename]

/-- `WebParser.auto_save_all`: on non-empty data, save to Excel only when
`EXCEL_AVAILABLE`, then always to CSV, then always to JSON; each writer's
failure is confined to itself. -/
def auto_save_all (excelAvailable excelOk csvOk jsonOk : Bool)
    (data : List Record) (base : String) : List SaveEvent :=
  if data.isEmpty then [.noData]
  else
    (if excelAvailable then save_to_excel excelAvailable excelOk data (base ++ ".xlsx") else [])
    ++ save_to_csv csvOk data (base ++ ".csv")
    ++ save_to_json jsonOk data (base ++ ".json")

/-! Helper lemmas about the dict model. -/

theorem lookup_cons (k : String) (p : String × Value) (r : Record) :
    List.lookup k (p :: r) = if k = p.1 then some p.2 else List.lookup k r := by
  rcases p with ⟨a, b⟩
  cases hka : (k == a) with
  | true =>
    have h : k = a := by simpa using hka
    simp [List.lookup, hka, h]
  | false =>
    have h : k ≠ a := by simpa using hka
    simp [List.lookup, hka, h]

theorem lookup_none_of_any_false (r : Record) (k : String)
    (h : r.any (fun p => p.1 == k) = false) : List.lookup k r = none := by
  induction r with
  | nil => rfl
  | cons p r ih =>
    simp only [List.any_cons, Bool.or_eq_false_iff, beq_eq_false_iff_ne] at h
    rw [lookup_cons, if_neg (Ne.symm h.1)]
    exact ih (by simpa [beq_eq_false_iff_ne] using h.2)

theorem lookup_append_of_none (r s : Record) (k : String)
    (h : List.lookup k r = none) : List.lookup k (r ++ s) = List.lookup k s := by
  induction r with
  | nil => simp
  | cons p r ih =>
    rw [lookup_cons] at h
    by_cases hp : k = p.1
    · rw [if_pos hp] at h; exact absurd h (by simp)
    · rw [if_neg hp] at h
      rw [List.cons_append, lookup_cons, if_neg hp]
      exact ih h

theorem lookup_map_set (r : Record) (k : String) (v : Value)
    (h : r.any (fun p => p.1 == k) = true) :
    List.lookup k (r.map (fun p => if p.1 == k then (k, v) else p)) = some v := by
  induction r with
  | nil => simp at h
  | cons p r ih =>
    by_cases hp : p.1 = k
    · rw [List.map_cons, if_pos (by simpa using hp), lookup_cons, if_pos rfl]
    · have h' : r.any (fun q => q.1 == k) = true := by
        simpa [List.any_cons, beq_iff_eq, hp] using h
      rw [List.map_cons, if_neg (by simpa using hp), lookup_cons, if_neg (Ne.symm hp)]
      exact ih h'

theorem lookup_recSet_self (r : Record) (k : String) (v : Value) :
    List.lookup k (recSet r k v) = some v := by
  unfold recSet
  cases h : r.any (fun p => p.1 == k) with
  | true => simpa [h] using lookup_map_set r k v h
  | false =>
    rw [if_neg (by simp [h])]
    rw [lookup_append_of_none r _ k (lookup_none_of_any_false r k h)]
    rw [lookup_cons, if_pos rfl]

theorem lookup_map_set_other (r : Record) (k k' : String) (v : Value) (h : k' ≠ k) :
    List.lookup k' (r.map (fun p => if p.1 == k then (k, v) else p)) = List.lookup k' r := by
  induction r with
  | nil => simp
  | cons p r ih =>
    by_cases hp : p.1 = k
    · rw [List.map_cons, if_pos (by simpa using hp), lookup_cons, lookup_cons,
        if_neg (by simpa using h), if_neg (by rw [hp]; simpa using h)]
      exact ih
    · rw [List.map_cons, if_neg (by simpa using hp), lookup_cons, lookup_cons]
      by_cases hk : k' = p.1
      · rw [if_pos hk, if_pos hk]
      · rw [if_neg hk, if_neg hk]; exact ih

theorem lookup_append_single_other (r : Record) (k k' : String) (v : Value) (h : k' ≠ k) :
    List.lookup k' (r ++ [(k, v)]) = List.lookup k' r := by
  induction r with
  | nil =>
    have : (k' == k) = false := by simpa using h
    simp [List.lookup, this]
  | cons p r ih =>
    rw [List.cons_append, lookup_cons, lookup_cons]
    by_cases hk : k' = p.1
    · rw [if_pos hk, if_pos hk]
    · rw [if_neg hk, if_neg hk]; exact ih

theorem lookup_recSet_other (r : Record) (k k' : String) (v : Value) (h : k' ≠ k) :
    List.lookup k' (recSet r k v) = List.lookup k' r := by
  unfold recSet
  split
  · exact lookup_map_set_other r k k' v h
  · exact lookup_append_single_other r k k' v h

/-! Helper lemmas about the pagination loop. -/

theorem parseLoop_ok (fetch : String → Option Doc) (url : String) (sel : Option Rules)
    (docs : Nat → Doc) :
    ∀ (n a : Nat) (acc : List Record),
      (∀ j, a ≤ j → j < a + n → fetch (pageUrl url j) = some (docs j)) →
      parseLoop fetch url sel acc (List.range' a n) =
        ⟨acc ++ ((List.range' a n).map (fun j => pageRecords url sel (docs j))).flatten,
         (List.range' a n).map (pageUrl url)⟩ := by
  intro n
  induction n with
  | zero => intro a acc _; simp [parseLoop]
  | succ n ih =>
    intro a acc hok
    rw [List.range'_succ]
    simp only [parseLoop]
    rw [hok a (Nat.le_refl a) (by omega)]
    simp only
    rw [ih (a + 1) (acc ++ pageRecords url sel (docs a))
      (fun j h1 h2 => hok j (by omega) (by omega))]
    simp [List.append_assoc]

theorem parseLoop_fail (fetch : String → Option Doc) (url : String) (sel : Option Rules)
    (docs : Nat → Doc) (k : Nat) :
    ∀ (n a : Nat) (acc : List Record),
      a ≤ k → k < a + n →
      (∀ j, a ≤ j → j < k → fetch (pageUrl url j) = some (docs j)) →
      fetch (pageUrl url k) = none →
      parseLoop fetch url sel acc (List.range' a n) =
        ⟨acc ++ ((List.range' a (k - a)).map (fun j => pageRecords url sel (docs j))).flatten,
         (List.range' a (k - a + 1)).map (pageUrl url)⟩ := by
  intro n
  induction n with
  | zero => intro a acc h1 h2 _ _; omega
  | succ n ih =>
    intro a acc hak hkn hok hfail
    rw [List.range'_succ]
    simp only [parseLoop]
    rcases Nat.eq_or_lt_of_le hak with heq | hlt
    · subst heq
      rw [hfail]
      simp [Nat.sub_self, parseLoop]
    · rw [hok a (Nat.le_refl a) hlt]
      simp only
      rw [ih (a + 1) (acc ++ pageRecords url sel (docs a)) (by omega) (by omega)
        (fun j h1 h2 => hok j (by omega) h2) hfail]
      have h1 : k - a = (k - (a + 1)) + 1 := by omega
      rw [h1]
      simp [List.range'_succ, List.append_assoc]

theorem pageRecords_mem_ne_nil (url : String) (sel : Option Rules) (doc : Doc)
    (r : Record) (hr : r ∈ pageRecords url sel doc) : r ≠ [] := by
  simp only [pageRecords, List.mem_filterMap] at hr
  rcases hr with ⟨item, _, hitem⟩
  by_cases he : (extractItem url sel item).isEmpty = true
  · simp [he] at hitem
  · rw [if_neg he] at hitem
    have hre := Option.some.inj hitem
    intro hnil
    exact he (by rw [hre, hnil]; rfl)

theorem parseLoop_data_mem (fetch : String → Option Doc) (url : String) (sel : Option Rules) :
    ∀ (ps : List Nat) (acc : List Record) (r : Record),
      r ∈ (parseLoop fetch url sel acc ps).data → r ∈ acc ∨ r ≠ [] := by
  intro ps
  induction ps with
  | nil => intro acc r hr; exact Or.inl hr
  | cons p ps ih =>
    intro acc r hr
    simp only [parseLoop] at hr
    cases hf : fetch (pageUrl url p) with
    | none => rw [hf] at hr; exact Or.inl hr
    | some doc =>
      rw [hf] at hr
      simp only at hr
      rcases ih (acc ++ pageRecords url sel doc) r hr with hmem | hne
      · rcases List.mem_append.mp hmem with h | h
        · exact Or.inl h
        · exact Or.inr (pageRecords_mem_ne_nil url sel doc r h)
      · exact Or.inr hne

theorem filterMap_nonempty_eq_filter (l : List Node) (g : Node → Record) :
    l.filterMap (fun i => if (g i).isEmpty then none else some (g i)) =
      (l.map g).filter (fun r => !r.isEmpty) := by
  induction l with
  | nil => rfl
  | cons n l ih =>
    cases hgn : (g n).isEmpty <;>
      simp only [List.filterMap_cons, List.map_cons, List.filter_cons, hgn, Bool.not_true,
        Bool.not_false, Bool.false_eq_true, Bool.true_eq_false, if_true, if_false,
        reduceIte, ih]

/-! Claim theorems. -/

/-- C1: if the fetch of page `k` fails (non-2xx status or transport error)
during a run of `parse_website` with `k ≤ max_pages`, the run aborts
immediately: the fetched URLs are exactly those of pages `1..k` (no page
after `k` is fetched), no exception escapes (the run totally returns a
`ParseOut`), and the returned result set is exactly the records accumulated
from pages `1..k-1`. -/
theorem fetch_failure_returns_partial (fetch : String → Option Doc) (url : String)
    (sel : Option Rules) (mp dl k : Nat) (docs : Nat → Doc)
    (hk1 : 1 ≤ k) (hk2 : k ≤ mp)
    (hok : ∀ j, 1 ≤ j → j < k → fetch (pageUrl url j) = some (docs j))
    (hfail : fetch (pageUrl url k) = none) :
    parse_website fetch url sel mp dl =
      ⟨((List.range' 1 (k - 1)).map (fun j => pageRecords url sel (docs j))).flatten,
       (List.range' 1 k).map (pageUrl url)⟩ := by
  unfold parse_website
  rw [parseLoop_fail fetch url sel docs k mp 1 [] hk1 (by omega) hok hfail]
  have hkk : k - 1 + 1 = k := by omega
  rw [hkk]
  simp

def docW1 : Doc := [.elem "div" [] [.elem "span" [] [.text "hello world"]]]

def rulesW1 : Rules := [("name", .tag "span")]

def fetchW1 : String → Option Doc := fun u => if u == "b" then some docW1 else none

/-- C1 witness: a fetch failure on page 2 of a 3-page run returns exactly the
records of page 1 and fetches nothing past page 2. -/
theorem fetch_failure_returns_partial_example :
    parse_website fetchW1 "b" (some rulesW1) 3 1 =
      ⟨[[("name", Value.str "hello world")]], ["b", "b?page=2"]⟩ := by
  have h := fetch_failure_returns_partial fetchW1 "b" (some rulesW1) 3 1 2 (fun _ => docW1)
    (by omega) (by omega)
    (fun j h1 h2 => by
      have hj : j = 1 := by omega
      subst hj
      rfl)
    (by rfl)
  rw [h]
  decide

/-- C2: with no fetch failure, a run with `max_pages = mp` issues exactly
`mp` fetches, for the page URLs of pages `1..mp` in order; page 1 fetches
the base URL unmodified and page `n > 1` appends `page=<n>`, joined with `&`
if the base URL already contains `?`, else with `?`. -/
theorem pagination_urls_exact (fetch : String → Option Doc) (url : String)
    (sel : Option Rules) (mp dl : Nat) (docs : Nat → Doc)
    (hok : ∀ j, 1 ≤ j → j ≤ mp → fetch (pageUrl url j) = some (docs j)) :
    (parse_website fetch url sel mp dl).fetched = (List.range' 1 mp).map (pageUrl url) ∧
    (parse_website fetch url sel mp dl).fetched.length = mp ∧
    pageUrl url 1 = url ∧
    (∀ n, 1 < n → pageUrl url n =
      if pyHasChar url '?' then url ++ "&page=" ++ toString n
      else url ++ "?page=" ++ toString n) := by
  have hpw : parse_website fetch url sel mp dl =
      ⟨((List.range' 1 mp).map (fun j => pageRecords url sel (docs j))).flatten,
       (List.range' 1 mp).map (pageUrl url)⟩ := by
    unfold parse_website
    rw [parseLoop_ok fetch url sel docs mp 1 [] (fun j h1 h2 => hok j h1 (by omega))]
    simp
  refine ⟨by rw [hpw], by rw [hpw]; simp, by simp [pageUrl], ?_⟩
  intro n hn
  have hne : (n == 1) = false := by simpa using (by omega : n ≠ 1)
  simp [pageUrl, hne]

def fetchW2 : String → Option Doc := fun _ => some []

/-- C2 witness: a 3-page run over a base URL with no query string fetches
`base`, `base?page=2`, `base?page=3` in that order. -/
theorem pagination_urls_exact_example :
    (parse_website fetchW2 "https://x.com/list" none 3 1).fetched =
      ["https://x.com/list", "https://x.com/list?page=2", "https://x.com/list?page=3"] := by
  have h := pagination_urls_exact fetchW2 "https://x.com/list" none 3 1 (fun _ => [])
    (fun j h1 h2 => rfl)
  rw [h.1]
  decide

/-- C6: item location dispatches on the rule set: with no rule set the
heuristic `_auto_detect_items` is used; with a non-empty rule set the items
are the document's matches of the `items` selector, defaulting to the `div`
selector when the `items` key is absent. -/
theorem item_location_dispatch (doc : Doc) :
    locateItems none doc = autoDetectItems doc ∧
    (∀ rs : Rules, rs ≠ [] → rs.lookup "items" = none →
      locateItems (some rs) doc = docSelect doc (Selector.tag "div")) ∧
    (∀ (rs : Rules) (sel : Selector), rs ≠ [] → rs.lookup "items" = some sel →
      locateItems (some rs) doc = docSelect doc sel) := by
  refine ⟨rfl, ?_, ?_⟩
  · intro rs hne hl
    have he : rs.isEmpty = false := by simpa [List.isEmpty_iff] using hne
    simp [locateItems, he, hl]
  · intro rs sel hne hl
    have he : rs.isEmpty = false := by simpa [List.isEmpty_iff] using hne
    simp [locateItems, he, hl]

def docW6 : Doc :=
  [.elem "div" [("id", "a")] [], .elem "div" [("id", "b")] [], .elem "div" [("id", "c")] []]

/-- C6 witness: a rule set lacking an `items` key locates items by the `div`
selector on a fixture of three labeled divs. -/
theorem item_location_dispatch_example :
    locateItems (some [("name", Selector.tag "span")]) docW6 =
      [Node.elem "div" [("id", "a")] [], .elem "div" [("id", "b")] [],
       .elem "div" [("id", "c")] []] := by
  have h := (item_location_dispatch docW6).2.1 [("name", Selector.tag "span")]
    (by decide) rfl
  rw [h]
  rfl

/-- C8: with the Excel dependency unavailable (`EXCEL_AVAILABLE = false`),
`auto_save_all` on non-empty data skips the Excel path without failing and
still attempts both the CSV and the JSON writes; in general each format's
write outcome (success or logged error) is independent of the others. -/
theorem export_formats_independent (data : List Record) (base : String)
    (av eOk cOk jOk : Bool) (hdata : data ≠ []) :
    auto_save_all av eOk cOk jOk data base =
      (if av then
        [if eOk then SaveEvent.saved (base ++ ".xlsx") else SaveEvent.saveError (base ++ ".xlsx")]
       else [])
      ++ [if cOk then SaveEvent.saved (base ++ ".csv") else SaveEvent.saveError (base ++ ".csv")]
      ++ [if jOk then SaveEvent.saved (base ++ ".json")
          else SaveEvent.saveError (base ++ ".json")] ∧
    (if cOk then SaveEvent.saved (base ++ ".csv") else SaveEvent.saveError (base ++ ".csv"))
      ∈ auto_save_all false eOk cOk jOk data base ∧
    (if jOk then SaveEvent.saved (base ++ ".json") else SaveEvent.saveError (base ++ ".json"))
      ∈ auto_save_all false eOk cOk jOk data base := by
  have hde : data.isEmpty = false := by simpa [List.isEmpty_iff] using hdata
  cases av <;> cases eOk <;> cases cOk <;> cases jOk <;>
    simp [auto_save_all, save_to_excel, save_to_csv, save_to_json, hde]

/-- C8 witness: with Excel unavailable and a failing CSV writer, the CSV
failure is reported and the JSON write still proceeds. -/
theorem export_formats_independent_example :
    auto_save_all false true false true [[("a", Value.str "x")]] "parsed_data" =
      [SaveEvent.saveError "parsed_data.csv", SaveEvent.saved "parsed_data.json"] := by
  have h := export_formats_independent [[("a", Value.str "x")]] "parsed_data" false true false
    true (by decide)
  rw [h.1]
  decide

/-- C9: extraction is deterministic — two runs whose fetches return identical
documents for every URL produce identical results (same records, same order,
same fetch trace). -/
theorem extraction_deterministic (f1 f2 : String → Option Doc) (url : String)
    (sel : Option Rules) (mp dl : Nat) (h : ∀ u, f1 u = f2 u) :
    parse_website f1 url sel mp dl = parse_website f2 url sel mp dl := by
  have hf : f1 = f2 := funext h
  rw [hf]

/-- C9 witness: determinism instantiated at a concrete fetch. -/
theorem extraction_deterministic_example :
    parse_website (fun _ => some ([] : Doc)) "u" none 2 1 =
      parse_website (fun _ => some ([] : Doc)) "u" none 2 1 :=
  extraction_deterministic (fun _ => some ([] : Doc)) (fun _ => some ([] : Doc)) "u" none 2 1
    (fun _ => rfl)

/-- Congruence for C10: a page contributes the same records under the empty
rule set as under no rule set. -/
theorem pageRecords_empty_rules (url : String) (doc : Doc) :
    pageRecords url (some []) doc = pageRecords url none doc := rfl

/-- C10: passing an empty rule set to `parse_website` behaves exactly like
passing no rule set — the falsy check routes both to heuristic mode. -/
theorem empty_rules_heuristic_mode (fetch : String → Option Doc) (url : String)
    (mp dl : Nat) :
    parse_website fetch url (some []) mp dl = parse_website fetch url none mp dl := by
  unfold parse_website
  suffices h : ∀ (ps : List Nat) (acc : List Record),
      parseLoop fetch url (some []) acc ps = parseLoop fetch url none acc ps by
    exact h _ _
  intro ps
  induction ps with
  | nil => intro acc; rfl
  | cons p ps ih =>
    intro acc
    simp only [parseLoop]
    cases fetch (pageUrl url p) with
    | none => rfl
    | some doc =>
      simp only
      rw [pageRecords_empty_rules, ih]

theorem autoDetectLoop_none (doc : Doc) :
    ∀ ss : List Selector, (∀ s ∈ ss, (docSelect doc s).length ≤ 1) →
      autoDetectLoop doc ss = none := by
  intro ss
  induction ss with
  | nil => intro _; rfl
  | cons s ss ih =>
    intro h
    simp only [autoDetectLoop]
    rw [if_neg (by have := h s (List.mem_cons_self s ss); omega)]
    exact ih (fun t ht => h t (List.mem_cons_of_mem s ht))

theorem autoDetectLoop_first (doc : Doc) :
    ∀ (ss : List Selector) (i : Nat) (hi : i < ss.length),
      (docSelect doc (ss.get ⟨i, hi⟩)).length > 1 →
      (∀ (j : Nat) (hj : j < i), (docSelect doc (ss.get ⟨j, Nat.lt_trans hj hi⟩)).length ≤ 1) →
      autoDetectLoop doc ss = some (docSelect doc (ss.get ⟨i, hi⟩)) := by
  intro ss
  induction ss with
  | nil => intro i hi; simp at hi
  | cons s ss ih =>
    intro i hi hgt hle
    cases i with
    | zero =>
      simp only [autoDetectLoop]
      rw [if_pos (show (docSelect doc s).length > 1 from hgt)]
      rfl
    | succ i =>
      simp only [autoDetectLoop]
      have h0 : (docSelect doc s).length ≤ 1 := hle 0 (Nat.succ_pos i)
      rw [if_neg (by omega)]
      exact ih i (Nat.lt_of_succ_lt_succ hi) hgt (fun j hj => hle (j + 1) (Nat.succ_lt_succ hj))

/-- C3: `_auto_detect_items` returns the match set of the first candidate
selector (in the declared order) that matches strictly more than one element
— candidates matching at most one element (including exactly one) are
skipped — and when no candidate matches more than one element it returns the
document's `div` elements in document order truncated to the first 10. -/
theorem auto_detect_first_repeated (doc : Doc) :
    (∀ (i : Nat) (hi : i < autoSelectors.length),
      (docSelect doc (autoSelectors.get ⟨i, hi⟩)).length > 1 →
      (∀ (j : Nat) (hj : j < i),
        (docSelect doc (autoSelectors.get ⟨j, Nat.lt_trans hj hi⟩)).length ≤ 1) →
      autoDetectItems doc = docSelect doc (autoSelectors.get ⟨i, hi⟩)) ∧
    ((∀ s ∈ autoSelectors, (docSelect doc s).length ≤ 1) →
      autoDetectItems doc = (docFindAll doc "div").take 10) := by
  constructor
  · intro i hi hgt hle
    unfold autoDetectItems
    rw [autoDetectLoop_first doc autoSelectors i hi hgt hle]
  · intro h
    unfold autoDetectItems
    rw [autoDetectLoop_none doc autoSelectors h]

def docW3 : Doc := [.elem "ul" [] [.elem "li" [] [.text "one"], .elem "li" [] [.text "two"]]]

/-- C3 witness: on a fixture with two `li` elements the `li` candidate
(index 5, after the four `div[class*=...]` candidates and `article`) wins;
on a document with no multiply-matching candidate and no `div`, the fallback
yields the empty list. -/
theorem auto_detect_first_repeated_example :
    autoDetectItems docW3 = [Node.elem "li" [] [.text "one"], .elem "li" [] [.text "two"]] ∧
    autoDetectItems [Node.elem "p" [] []] = [] := by
  constructor
  · have h := (auto_detect_first_repeated docW3).1 5 (by decide) (by decide) (by decide)
    rw [h]
    rfl
  · have h := (auto_detect_first_repeated [Node.elem "p" [] []]).2 (by decide)
    rw [h]
    rfl

theorem lookup_text_recSet_title (r : Record) (v : Value) :
    List.lookup "text" (recSet r "title" v) = List.lookup "text" r :=
  lookup_recSet_other r "title" "text" v (by decide)

theorem lookup_text_recSet_links (r : Record) (v : Value) :
    List.lookup "text" (recSet r "links" v) = List.lookup "text" r :=
  lookup_recSet_other r "links" "text" v (by decide)

theorem lookup_text_recSet_images (r : Record) (v : Value) :
    List.lookup "text" (recSet r "images" v) = List.lookup "text" r :=
  lookup_recSet_other r "images" "text" v (by decide)

/-- C5: the heuristic `text` field is present if and only if the item's
stripped text is longer than 10 characters, and its value is the first 200
characters followed by `'...'` when the text is longer than 200 characters,
else the text verbatim. -/
theorem auto_text_field_spec (item : Node) :
    List.lookup "text" (extractAutoData item) =
      (if pyLen (textN item) > 10 then
        some (Value.str (if pyLen (textN item) > 200 then pyTake (textN item) 200 ++ "..."
          else textN item))
      else none) := by
  have hne : pyLen (textN item) > 10 → textN item ≠ "" := by
    intro h he
    rw [he] at h
    exact absurd h (by decide)
  by_cases hc : pyLen (textN item) > 10
  · rw [if_pos hc]
    cases hT : findFirstTag item ["h1", "h2", "h3", "h4", "h5", "h6"] <;>
    cases hA : (findAllTag item "a").isEmpty <;>
    cases hI : (findAllTag item "img").isEmpty <;>
      simp only [extractAutoData, hT, hA, hI, Bool.false_eq_true, if_false, if_true,
        reduceIte] <;>
      rw [if_pos ⟨hne hc, hc⟩] <;>
      exact lookup_recSet_self _ "text" _
  · rw [if_neg hc]
    have hcond : ¬(textN item ≠ "" ∧ pyLen (textN item) > 10) := fun h => hc h.2
    cases hT : findFirstTag item ["h1", "h2", "h3", "h4", "h5", "h6"] <;>
    cases hA : (findAllTag item "a").isEmpty <;>
    cases hI : (findAllTag item "img").isEmpty <;>
      simp only [extractAutoData, hT, hA, hI, Bool.false_eq_true, if_false, if_true,
        reduceIte] <;>
      rw [if_neg hcond] <;>
      simp [lookup_text_recSet_title, lookup_text_recSet_links,
        lookup_text_recSet_images, List.lookup]

def itemW5a : Node := .elem "div" [] [.text (String.mk (List.replicate 250 'a'))]

def itemW5b : Node := .elem "div" [] [.text (String.mk (List.replicate 150 'b'))]

def itemW5c : Node := .elem "div" [] [.text "abcde"]

/-- C5 witness: a 250-character text yields a 200-character prefix plus the
ellipsis marker, a 150-character text is kept verbatim, and a 5-character
text yields no `text` field. -/
theorem auto_text_field_spec_example :
    List.lookup "text" (extractAutoData itemW5a) =
      some (Value.str (String.mk (List.replicate 200 'a') ++ "...")) ∧
    List.lookup "text" (extractAutoData itemW5b) =
      some (Value.str (String.mk (List.replicate 150 'b'))) ∧
    List.lookup "text" (extractAutoData itemW5c) = none := by
  refine ⟨?_, ?_, ?_⟩
  · rw [auto_text_field_spec itemW5a]; decide
  · rw [auto_text_field_spec itemW5b]; decide
  · rw [auto_text_field_spec itemW5c]; decide

/-- C7: every record in the result set is non-empty (items yielding an empty
record are skipped), each page contributes the located items' records in
document order with no deduplication (filtering the per-item extraction,
keeping duplicates), and the result set is the concatenation of the pages'
record lists in page order. -/
theorem resultset_nonempty_ordered (fetch : String → Option Doc) (url : String)
    (sel : Option Rules) (mp dl : Nat) :
    (∀ r ∈ (parse_website fetch url sel mp dl).data, r ≠ []) ∧
    (∀ doc : Doc, pageRecords url sel doc =
      ((locateItems sel doc).map (extractItem url sel)).filter (fun r => !r.isEmpty)) ∧
    (∀ docs : Nat → Doc, (∀ j, 1 ≤ j → j ≤ mp → fetch (pageUrl url j) = some (docs j)) →
      (parse_website fetch url sel mp dl).data =
        ((List.range' 1 mp).map (fun j => pageRecords url sel (docs j))).flatten) := by
  refine ⟨?_, ?_, ?_⟩
  · intro r hr
    rcases parseLoop_data_mem fetch url sel (List.range' 1 mp) [] r hr with h | h
    · simp at h
    · exact h
  · intro doc
    exact filterMap_nonempty_eq_filter (locateItems sel doc) (extractItem url sel)
  · intro docs hok
    unfold parse_website
    rw [parseLoop_ok fetch url sel docs mp 1 [] (fun j h1 h2 => hok j h1 (by omega))]
    simp

def docW7 : Doc :=
  [.elem "ul" []
    [.elem "li" [] [.text "a very long text indeed"],
     .elem "li" [] [.text "a very long text indeed"],
     .elem "li" [] [.text "x"]]]

/-- C7 witness: two identical items both contribute their (identical)
records in order, and an item yielding an empty record is dropped. -/
theorem resultset_nonempty_ordered_example :
    (parse_website (fun _ => some docW7) "u" none 1 1).data =
      [[("text", Value.str "a very long text indeed")],
       [("text", Value.str "a very long text indeed")]] := by
  have h := (resultset_nonempty_ordered (fun _ => some docW7) "u" none 1 1).2.2
    (fun _ => docW7) (fun j h1 h2 => rfl)
  rw [h]
  decide

/-! Helper lemmas for the rule-extraction dict. -/

theorem append_link_ne_self (s : String) : s ++ "_link" ≠ s := by
  intro h
  have hl := congrArg String.length h
  rw [String.length_append] at hl
  have h5 : "_link".length = 5 := rfl
  omega

theorem append_link_injective (a b : String) (h : a ++ "_link" = b ++ "_link") : a = b := by
  have hd := congrArg String.data h
  rw [String.data_append, String.data_append] at hd
  exact String.ext (List.append_cancel_right hd)

theorem extractRuleStep_lookup_avoid (url : String) (item : Node) (acc : Record)
    (k : String) (s : Selector) (m : String) (h1 : k ≠ m) (h2 : k ++ "_link" ≠ m) :
    List.lookup m (extractRuleStep url item acc (k, s)) = List.lookup m acc := by
  simp only [extractRuleStep]
  by_cases hk : (k == "items") = true
  · rw [if_pos hk]
  · rw [if_neg hk]
    cases selectOne item s with
    | none => rfl
    | some el =>
      simp only
      cases getAttr el "href" with
      | none => exact lookup_recSet_other acc k m _ (Ne.symm h1)
      | some hv =>
        simp only
        by_cases he : (hv == "") = true
        · rw [if_pos he]
          exact lookup_recSet_other acc k m _ (Ne.symm h1)
        · rw [if_neg he]
          rw [lookup_recSet_other _ (k ++ "_link") m _ (Ne.symm h2)]
          exact lookup_recSet_other acc k m _ (Ne.symm h1)

theorem extractRule_foldl_lookup_avoid (url : String) (item : Node) (l : Rules)
    (acc : Record) (m : String)
    (h : ∀ p ∈ l, p.1 ≠ m ∧ p.1 ++ "_link" ≠ m) :
    List.lookup m (l.foldl (extractRuleStep url item) acc) = List.lookup m acc := by
  induction l generalizing acc with
  | nil => rfl
  | cons p l ih =>
    rw [List.foldl_cons]
    rw [ih _ (fun q hq => h q (List.mem_cons_of_mem p hq))]
    rcases p with ⟨k, s⟩
    exact extractRuleStep_lookup_avoid url item acc k s m
      (h (k, s) (List.mem_cons_self _ _)).1 (h (k, s) (List.mem_cons_self _ _)).2

theorem extractRuleStep_lookup_link (url : String) (item : Node) (acc : Record)
    (key : String) (sel : Selector)
    (hkey : key ≠ "items") (hacc : List.lookup (key ++ "_link") acc = none) :
    List.lookup (key ++ "_link") (extractRuleStep url item acc (key, sel)) =
      (match selectOne item sel with
       | none => none
       | some el =>
         match getAttr el "href" with
         | none => none
         | some h => if h = "" then none else some (Value.str (urljoin url h))) := by
  simp only [extractRuleStep]
  rw [if_neg (by simpa using hkey)]
  cases selectOne item sel with
  | none => exact hacc
  | some el =>
    simp only
    cases getAttr el "href" with
    | none =>
      rw [lookup_recSet_other acc key (key ++ "_link") _ (append_link_ne_self key)]
      exact hacc
    | some hv =>
      simp only
      by_cases he : hv = ""
      · rw [if_pos (by simpa using he), if_pos he]
        rw [lookup_recSet_other acc key (key ++ "_link") _ (append_link_ne_self key)]
        exact hacc
      · rw [if_neg (by simpa using he), if_neg he]
        exact lookup_recSet_self _ (key ++ "_link") _

theorem extractRuleStep_no_match (url : String) (item : Node) (acc : Record)
    (key : String) (sel : Selector)
    (hkey : key ≠ "items") (hnone : selectOne item sel = none) :
    extractRuleStep url item acc (key, sel) = acc := by
  simp only [extractRuleStep]
  rw [if_neg (by simpa using hkey), hnone]

def itemW4cex : Node := .elem "div" [] [.elem "a" [("href", "")] [.text "x"]]

/-- C4 counterexample: for the rule `t ↦ a` on an item whose first matched
anchor carries the href attribute with the empty value, the element carries
an `href` attribute yet `extractRule` emits no `t_link` entry — Python's
`if element.get('href'):` is a truthiness test, so an empty href produces no
companion entry, refuting the claimed "carries an href attribute" iff. -/
theorem rule_link_empty_href_cex :
    selectOne itemW4cex (Selector.tag "a") =
      some (Node.elem "a" [("href", "")] [Node.text "x"]) ∧
    getAttr (Node.elem "a" [("href", "")] [Node.text "x"]) "href" = some "" ∧
    List.lookup "t_link" (extractRule "https://x.com/" [("t", Selector.tag "a")] itemW4cex) =
      none ∧
    List.lookup "t" (extractRule "https://x.com/" [("t", Selector.tag "a")] itemW4cex) =
      some (Value.str "x") := by
  refine ⟨rfl, rfl, by decide, by decide⟩

/-- C4 (amended): for every rule key other than `items` (in a rule set whose
keys are distinct and free of `_link`-suffix collisions), `extractRule`
emits the companion `<key>_link` entry if and only if the first matched
descendant carries a NON-EMPTY href attribute, its value being the href
resolved against the base URL by `urljoin`; and a key whose selector matches
no descendant produces no entry at all. -/
theorem rule_link_iff_nonempty_href (url : String) (rules : Rules) (item : Node)
    (key : String) (sel : Selector)
    (hmem : (key, sel) ∈ rules)
    (hnd : (rules.map Prod.fst).Nodup)
    (hnl : ∀ k ∈ rules.map Prod.fst, k ++ "_link" ∉ rules.map Prod.fst)
    (hkey : key ≠ "items") :
    (List.lookup (key ++ "_link") (extractRule url rules item) =
      (match selectOne item sel with
       | none => none
       | some el =>
         match getAttr el "href" with
         | none => none
         | some h => if h = "" then none else some (Value.str (urljoin url h)))) ∧
    (selectOne item sel = none → List.lookup key (extractRule url rules item) = none) := by
  obtain ⟨l1, l2, rfl⟩ := List.append_of_mem hmem
  have hkeys : key ∈ (l1 ++ (key, sel) :: l2).map Prod.fst :=
    List.mem_map_of_mem Prod.fst (List.mem_append_right l1 (List.mem_cons_self _ _))
  have hlink_notin : key ++ "_link" ∉ (l1 ++ (key, sel) :: l2).map Prod.fst :=
    hnl key hkeys
  rw [List.map_append, List.map_cons] at hnd
  rcases List.nodup_append.mp hnd with ⟨hnd1, hnd2, hdisj⟩
  rcases List.nodup_cons.mp hnd2 with ⟨hk2, _⟩
  have hk1 : key ∉ l1.map Prod.fst :=
    fun hmem1 => hdisj hmem1 (List.mem_cons_self _ _)
  have havoid1 : ∀ p ∈ l1, p.1 ≠ key ++ "_link" ∧ p.1 ++ "_link" ≠ key ++ "_link" := by
    intro p hp
    constructor
    · intro he
      exact hlink_notin (he ▸ List.mem_map_of_mem Prod.fst (List.mem_append_left _ hp))
    · intro he
      have hpk : p.1 = key := append_link_injective p.1 key he
      have hm : p.1 ∈ l1.map Prod.fst := List.mem_map_of_mem Prod.fst hp
      rw [hpk] at hm
      exact hk1 hm
  have havoid2 : ∀ p ∈ l2, p.1 ≠ key ++ "_link" ∧ p.1 ++ "_link" ≠ key ++ "_link" := by
    intro p hp
    constructor
    · intro he
      exact hlink_notin (he ▸ List.mem_map_of_mem Prod.fst
        (List.mem_append_right l1 (List.mem_cons_of_mem _ hp)))
    · intro he
      have hpk : p.1 = key := append_link_injective p.1 key he
      have hm : p.1 ∈ l2.map Prod.fst := List.mem_map_of_mem Prod.fst hp
      rw [hpk] at hm
      exact hk2 hm
  have hkavoid1 : ∀ p ∈ l1, p.1 ≠ key ∧ p.1 ++ "_link" ≠ key := by
    intro p hp
    constructor
    · intro he
      have hm : p.1 ∈ l1.map Prod.fst := List.mem_map_of_mem Prod.fst hp
      rw [he] at hm
      exact hk1 hm
    · intro he
      have hpmem : p.1 ∈ (l1 ++ (key, sel) :: l2).map Prod.fst :=
        List.mem_map_of_mem Prod.fst (List.mem_append_left _ hp)
      exact hnl p.1 hpmem (he ▸ hkeys)
  have hkavoid2 : ∀ p ∈ l2, p.1 ≠ key ∧ p.1 ++ "_link" ≠ key := by
    intro p hp
    constructor
    · intro he
      have hm : p.1 ∈ l2.map Prod.fst := List.mem_map_of_mem Prod.fst hp
      rw [he] at hm
      exact hk2 hm
    · intro he
      have hpmem : p.1 ∈ (l1 ++ (key, sel) :: l2).map Prod.fst :=
        List.mem_map_of_mem Prod.fst
          (List.mem_append_right l1 (List.mem_cons_of_mem _ hp))
      exact hnl p.1 hpmem (he ▸ hkeys)
  constructor
  · rw [extractRule, List.foldl_append, List.foldl_cons]
    rw [extractRule_foldl_lookup_avoid url item l2 _ (key ++ "_link") havoid2]
    rw [extractRuleStep_lookup_link url item _ key sel hkey
      (by
        rw [extractRule_foldl_lookup_avoid url item l1 [] (key ++ "_link") havoid1]
        rfl)]
  · intro hsel
    rw [extractRule, List.foldl_append, List.foldl_cons]
    rw [extractRuleStep_no_match url item _ key sel hkey hsel]
    rw [extractRule_foldl_lookup_avoid url item l2 _ key hkavoid2]
    rw [extractRule_foldl_lookup_avoid url item l1 [] key hkavoid1]
    rfl

def itemW4 : Node := .elem "div" [] [.elem "a" [("href", "/a/b")] [.text "x"]]

/-- C4 witness: a relative href `/a/b` on the matched element is resolved
against the base `https://x.com/` to the absolute `https://x.com/a/b` and
emitted as the `t_link` companion entry. -/
theorem rule_link_iff_nonempty_href_example :
    List.lookup "t_link" (extractRule "https://x.com/" [("t", Selector.tag "a")] itemW4) =
      some (Value.str "https://x.com/a/b") := by
  have h := rule_link_iff_nonempty_href "https://x.com/" [("t", Selector.tag "a")] itemW4
    "t" (Selector.tag "a") (by decide) (by decide)
    (by intro k hk; fin_cases hk; decide) (by decide)
  rw [show "t_link" = "t" ++ "_link" from rfl, h.1]
  decide
